import Mathlib

/-!
Verification development for the bbb-monitor stock monitor
(`src/monitor.py`).

The Python program is embedded shallowly:

* A Python `dict` (insertion ordered, unique keys) becomes an ordered
  association list `List (String × Nat)`; `dict.get` (default `None`)
  becomes `dget`, and item assignment `d[k] = v` becomes `dinsert`,
  which replaces in place or appends at the end, preserving iteration
  order exactly as CPython does.
* `None`, used by `dict.get` as the absence sentinel, becomes `none`
  of `Option Nat`.
* A Python expression that can raise becomes `Except Unit _`; the
  `TypeError` raised by `old < new` when either side is `None` is the
  `Except.error` of `pyLt`.
* The ambient effects of `main` (the snapshot file and the Telegram
  sends) are reified: the file system state read by `load_last_stock`
  is a `FileState`, and `main` returns a `RunOutcome` recording what
  was written to the file, which message texts were sent, and whether
  an uncaught exception escaped `main` (`crashed`).
* `datetime.utcnow()` is a parameter `now_utc`; the environment
  variables `MODE` and `ONLY_ON_CHANGE` are parameters `mode` and
  `only_on_change`; the per-URL fetch `fetch_stock_from_url` (pure
  network I/O plus HTML parsing) is a parameter of `fetch_stock`.
-/

namespace Monitor

/-- A stock snapshot: Python dict mapping product name to count,
as an insertion-ordered association list with unique keys. -/
abbrev Stock := List (String × Nat)

/-- A change record: Python dict mapping product name to the pair
(old value or `none`, new value or `none`). -/
abbrev ChangeRec := List (String × (Option Nat × Option Nat))

/-- Python `s.split(sep)` for a one-character separator, over the
character list: splitting never drops pieces, so `"".split(",")` is
`[""]` and `",".split(",")` is `["", ""]`. -/
def splitChar (sep : Char) : List Char → List (List Char)
  | [] => [[]]
  | c :: rest =>
    match splitChar sep rest with
    | [] => [[]]
    | cur :: others =>
      if c = sep then [] :: cur :: others else (c :: cur) :: others

/-- Python `s.split(sep)` on strings, one-character separator. -/
def pySplit (sep : Char) (s : String) : List String :=
  (splitChar sep s.data).map String.mk

/-- Python `s.strip()`: drop whitespace from both ends (the
whitespace characters the program meets are ASCII). -/
def pyStrip (s : String) : String :=
  String.mk
    (((s.data.dropWhile Char.isWhitespace).reverse.dropWhile Char.isWhitespace).reverse)

/-- Python string comparison `a < b`: lexicographic by code point,
with a proper prefix smaller than the longer string. -/
def pyLtChars : List Char → List Char → Bool
  | [], [] => false
  | [], _ :: _ => true
  | _ :: _, [] => false
  | a :: as, b :: bs => if a = b then pyLtChars as bs else decide (a < b)

/-- Python `a < b` on strings. -/
def pyStrLt (a b : String) : Bool := pyLtChars a.data b.data

/-- Python `a <= b` on strings, the order `sorted` sorts by. -/
def pyStrLe (a b : String) : Bool := !pyLtChars b.data a.data

/-- Python `d.get(k)` with default `None`: first entry with the key. -/
def dget : Stock → String → Option Nat
  | [], _ => none
  | p :: rest, k => if p.1 = k then some p.2 else dget rest k

/-- Python `d[k] = v` on an insertion-ordered dict: replace the value
in place when the key is present, otherwise append at the end. -/
def dinsert : Stock → String → Nat → Stock
  | [], k, v => [(k, v)]
  | p :: rest, k, v => if p.1 = k then (k, v) :: rest else p :: dinsert rest k v

/-- Python `total.update(part)`: assign every entry of `part`, in
order, into `total`. -/
def dupdate (total part : Stock) : Stock :=
  part.foldl (fun d p => dinsert d p.1 p.2) total

/-- The keys of a snapshot. -/
def dkeys (d : Stock) : List String := d.map Prod.fst

/-- Python `sorted(set(old.keys()) | set(new.keys()))` of
`diff_stock`: the distinct keys of both snapshots in ascending order. -/
def sortedKeys (old new : Stock) : List String :=
  List.insertionSort (fun a b => pyStrLe a b = true) (dkeys old ++ dkeys new).dedup

/-- `diff_stock(old, new)` from `src/monitor.py`: walk the sorted key
union and record each key whose two `get` results differ, mapped to
the pair of results. -/
def diff_stock (old new : Stock) : ChangeRec :=
  (sortedKeys old new).filterMap fun k =>
    let o := dget old k
    let n := dget new k
    if o ≠ n then some (k, (o, n)) else none

/-- The URL list of `fetch_stock`: split the raw configuration string
on commas, strip each piece, and drop the empty ones. -/
def parse_urls (raw : String) : List String :=
  ((pySplit ',' raw).map pyStrip).filter (fun u => u ≠ "")

/-- `fetch_stock` from `src/monitor.py`, with the per-URL fetch
(`fetch_stock_from_url`, pure network and HTML work) abstracted as the
function argument: fetch every configured URL in order and merge the
results with `dict.update`, propagating the first failure. -/
def fetch_stock (fetchURL : String → Except String Stock) (raw : String) :
    Except String Stock :=
  (parse_urls raw).foldlM (fun total url => do
    let part ← fetchURL url
    pure (dupdate total part)) []

/-- State of the snapshot file as seen by `load_last_stock`:
missing, unreadable or unparsable, or parsed JSON content (where
`parsed none` is the JSON literal `null`, which `json.load` returns
as Python `None`). -/
inductive FileState where
  | missing
  | corrupt
  | parsed (v : Option Stock)
deriving DecidableEq

/-- `load_last_stock` from `src/monitor.py`: `None` when the file is
missing or raises during read or parse, otherwise the parsed JSON
value (which is itself `None` when the file holds `null`). -/
def load_last_stock : FileState → Option Stock
  | .missing => none
  | .corrupt => none
  | .parsed v => v

/-- The needle matches at the head of the haystack. -/
def matchHere : List Char → List Char → Bool
  | [], _ => true
  | _ :: _, [] => false
  | a :: as, b :: bs => (a == b) && matchHere as bs

/-- The needle occurs contiguously somewhere in the haystack. -/
def hasSub (needle : List Char) : List Char → Bool
  | [] => needle.isEmpty
  | b :: bs => matchHere needle (b :: bs) || hasSub needle bs

/-- Python string containment `needle in hay`: contiguous substring
(the empty string is contained in everything). -/
def pyInSubstr (needle hay : String) : Bool :=
  hasSub needle.data hay.data

/-- Python `str.isalnum` restricted to the character ranges the
program meets: ASCII alphanumerics and CJK unified ideographs, both
alphanumeric for Python; a string is alnum when non-empty and all its
characters are. -/
def pyStrIsAlnum (s : String) : Bool :=
  !s.data.isEmpty && s.data.all fun c =>
    c.isAlphanum || (0x4E00 ≤ c.toNat && c.toNat ≤ 0x9FFF)

/-- Python `f-string` rendering of a value that may be `None`. -/
def pyStr : Option Nat → String
  | some n => toString n
  | none => "None"

/-- Python `old < new` on `get` results: a `TypeError`
(`Except.error`) as soon as either side is `None`. -/
def pyLt : Option Nat → Option Nat → Except Unit Bool
  | some a, some b => Except.ok (decide (a < b))
  | _, _ => Except.error ()

/-- The category list hard-coded in `build_full_message`. -/
def product_types : List String :=
  ["中国人妻", "日本女优", "避孕套", "避孕药", "赞助商", "波多野结衣"]

/-- One line of the full report: the region tokens are the
alphanumeric pieces of the name after its second `-`-separated
segment, comma-joined in parentheses after the count and unit. -/
def full_line (name : String) (stock : Nat) : String :=
  let regions := ((pySplit '-' name).drop 2).filter pyStrIsAlnum
  name ++ ": " ++ toString stock ++ " 台 (" ++ String.intercalate ", " regions ++ ")"

/-- `build_full_message` from `src/monitor.py`: header, then for each
category a section header and a line for every product whose name
contains the category label, then a blank line, closing with the
timestamp line; faithful to the two nested `for` loops appending to
`lines`. -/
def build_full_message (stock_dict : Stock) (mode now_utc : String) : String :=
  let lines := ["📊 " ++ mode ++ " 库存汇总", ""]
  let lines := product_types.foldl (fun lines product_type =>
    let lines := lines ++ ["【" ++ product_type ++ "】"]
    let lines := stock_dict.foldl (fun lines p =>
      if pyInSubstr product_type p.1 then lines ++ [full_line p.1 p.2] else lines) lines
    lines ++ [""]) lines
  let lines := lines ++ ["更新时间：" ++ now_utc]
  String.intercalate "\n" lines

/-- Python `sorted(changes.items())`: with the distinct keys of a
dict, tuple comparison never goes past the first component, so this
is a sort by key. -/
def sortChanges (changes : ChangeRec) : ChangeRec :=
  List.insertionSort (fun p q => pyStrLe p.1 q.1 = true) changes

/-- The loop body of `build_change_message`: pick the arrow with
`old < new` (a `TypeError` when either side is the sentinel) and
append the formatted line. -/
def change_step (lines : List String)
    (p : String × (Option Nat × Option Nat)) : Except Unit (List String) := do
  let lt ← pyLt p.2.1 p.2.2
  let arrow := if lt then "↗️" else "↘️"
  pure (lines ++ [p.1 ++ ": " ++ pyStr p.2.1 ++ " -> " ++ pyStr p.2.2 ++ " " ++ arrow])

/-- The line `build_change_message` emits for an entry whose two
sides are present. -/
def change_line (p : String × (Option Nat × Option Nat)) : String :=
  p.1 ++ ": " ++ pyStr p.2.1 ++ " -> " ++ pyStr p.2.2 ++ " " ++
    (if p.2.1.getD 0 < p.2.2.getD 0 then "↗️" else "↘️")

/-- `build_change_message` from `src/monitor.py`: header, then one
line per changed entry in sorted order with the direction arrow
chosen by `old < new` (raising on the sentinel), closing with the
timestamp line. -/
def build_change_message (changes : ChangeRec) (mode now_utc : String) :
    Except Unit String := do
  let lines := ["🔔 " ++ mode ++ " 库存变动提醒", ""]
  let lines ← (sortChanges changes).foldlM change_step lines
  let lines := lines ++ ["更新时间：" ++ now_utc]
  pure (String.intercalate "\n" lines)

/-- What one invocation of `main` did to the world: the snapshot
written to `last_stock.json` (if any), the texts handed to
`send_tg_message` in order, and whether an exception escaped `main`
uncaught. -/
structure RunOutcome where
  saved : Option Stock
  sent : List String
  crashed : Bool
deriving DecidableEq

/-- The message sent when `fetch_stock` raises. -/
def fetch_fail_msg (e : String) : String := "⚠️ 库存监控抓取失败：" ++ e

/-- The message sent when nothing was parsed. -/
def empty_msg : String := "⚠️ 库存监控没有解析到任何库存，请检查页面结构或脚本。"

/-- The first-run marker appended to the full report. -/
def first_run_suffix : String := "\n\n(首次采集)"

/-- `main` from `src/monitor.py` over the reified environment:
`fetched` is the outcome of `fetch_stock` (its exceptions are the
only ones the `try` block catches), `fs` the state of
`last_stock.json`, and the configuration and timestamp are
parameters. Sends that Python would perform after an uncaught
exception never happen; `crashed` records that the exception left
`main`. -/
def main (fetched : Except String Stock) (fs : FileState)
    (mode : String) (only_on_change : Bool) (now_utc : String) : RunOutcome :=
  match fetched with
  | .error e => ⟨none, [fetch_fail_msg e], false⟩
  | .ok current =>
    if current.isEmpty then ⟨none, [empty_msg], false⟩
    else
      match load_last_stock fs with
      | none =>
        ⟨some current, [build_full_message current mode now_utc ++ first_run_suffix], false⟩
      | some last =>
        let changes := diff_stock last current
        if changes.isEmpty then
          if only_on_change then ⟨some current, [], false⟩
          else ⟨some current, [build_full_message current mode now_utc], false⟩
        else
          if only_on_change then
            match build_change_message changes mode now_utc with
            | .error _ => ⟨some current, [], true⟩
            | .ok m => ⟨some current, [m], false⟩
          else ⟨some current, [build_full_message current mode now_utc], false⟩

/-- A two-page fetch environment realising the aggregation example of
the spec: the first URL yields one entry for X, the second yields new
entries for X and Y. -/
def exampleFetcher : String → Except String Stock := fun u =>
  if u = "u1" then Except.ok [("X", 1)] else Except.ok [("X", 2), ("Y", 5)]

/-! ### Order theory of the Python string comparison -/

theorem pyLtChars_irrefl : ∀ l : List Char, pyLtChars l l = false
  | [] => rfl
  | c :: l => by simp [pyLtChars, pyLtChars_irrefl l]

theorem pyLtChars_asymm : ∀ a b : List Char,
    pyLtChars a b = true → pyLtChars b a = false := by
  intro a
  induction a with
  | nil =>
    intro b _
    cases b with
    | nil => rfl
    | cons y bs => rfl
  | cons x as ih =>
    intro b h
    cases b with
    | nil => exact absurd h (by simp [pyLtChars])
    | cons y bs =>
      by_cases hxy : x = y
      · subst hxy
        simp only [pyLtChars, if_pos rfl] at h ⊢
        exact ih bs h
      · simp only [pyLtChars, if_neg hxy] at h
        have hlt : x < y := of_decide_eq_true h
        have hyx : ¬y = x := fun e => hxy e.symm
        simp only [pyLtChars, if_neg hyx]
        exact decide_eq_false (lt_asymm hlt)

theorem pyLtChars_connected : ∀ a b : List Char, a ≠ b →
    pyLtChars a b = true ∨ pyLtChars b a = true := by
  intro a
  induction a with
  | nil =>
    intro b hne
    cases b with
    | nil => exact absurd rfl hne
    | cons y bs => exact Or.inl rfl
  | cons x as ih =>
    intro b hne
    cases b with
    | nil => exact Or.inr rfl
    | cons y bs =>
      by_cases hxy : x = y
      · subst hxy
        have hne2 : as ≠ bs := fun h => hne (by rw [h])
        rcases ih bs hne2 with h | h
        · exact Or.inl (by simpa [pyLtChars] using h)
        · exact Or.inr (by simpa [pyLtChars] using h)
      · rcases lt_trichotomy x y with h | h | h
        · exact Or.inl (by simp [pyLtChars, hxy, h])
        · exact absurd h hxy
        · have hyx : ¬y = x := fun e => hxy e.symm
          exact Or.inr (by simp [pyLtChars, hyx, h])

theorem pyLtChars_trans : ∀ a b c : List Char,
    pyLtChars a b = true → pyLtChars b c = true → pyLtChars a c = true := by
  intro a
  induction a with
  | nil =>
    intro b c hab hbc
    cases b with
    | nil => exact hbc
    | cons y bs =>
      cases c with
      | nil => exact absurd hbc (by simp [pyLtChars])
      | cons z cs => rfl
  | cons x as ih =>
    intro b c hab hbc
    cases b with
    | nil => exact absurd hab (by simp [pyLtChars])
    | cons y bs =>
      cases c with
      | nil => exact absurd hbc (by simp [pyLtChars])
      | cons z cs =>
        by_cases hxy : x = y
        · subst hxy
          simp only [pyLtChars, if_pos rfl] at hab
          by_cases hyz : x = z
          · subst hyz
            simp only [pyLtChars, if_pos rfl] at hbc ⊢
            exact ih bs cs hab hbc
          · simp only [pyLtChars, if_neg hyz] at hbc ⊢
            exact hbc
        · simp only [pyLtChars, if_neg hxy] at hab
          have hlt1 : x < y := of_decide_eq_true hab
          by_cases hyz : y = z
          · subst hyz
            simp only [pyLtChars, if_neg hxy]
            exact decide_eq_true hlt1
          · simp only [pyLtChars, if_neg hyz] at hbc
            have hlt2 : y < z := of_decide_eq_true hbc
            have hlt : x < z := lt_trans hlt1 hlt2
            simp only [pyLtChars, if_neg (ne_of_lt hlt)]
            exact decide_eq_true hlt

theorem string_data_inj {a b : String} (h : a.data = b.data) : a = b := by
  cases a
  cases b
  cases h
  rfl

theorem pyStrLe_total (a b : String) :
    pyStrLe a b = true ∨ pyStrLe b a = true := by
  unfold pyStrLe
  cases h : pyLtChars b.data a.data
  · exact Or.inl rfl
  · exact Or.inr (by rw [pyLtChars_asymm _ _ h]; rfl)

theorem pyStrLe_trans (a b c : String) (hab : pyStrLe a b = true)
    (hbc : pyStrLe b c = true) : pyStrLe a c = true := by
  unfold pyStrLe at hab hbc ⊢
  rw [Bool.not_eq_true'] at hab hbc ⊢
  by_contra hca
  have hca2 : pyLtChars c.data a.data = true := by
    cases h : pyLtChars c.data a.data
    · exact absurd h hca
    · rfl
  by_cases hba : b.data = a.data
  · rw [← hba] at hca2
    rw [hbc] at hca2
    exact Bool.false_ne_true hca2
  · rcases pyLtChars_connected b.data a.data hba with h | h
    · rw [hab] at h
      exact Bool.false_ne_true h
    · have h2 := pyLtChars_trans _ _ _ hca2 h
      rw [hbc] at h2
      exact Bool.false_ne_true h2

theorem pyStrLe_antisymm (a b : String) (h1 : pyStrLe a b = true)
    (h2 : pyStrLe b a = true) : a = b := by
  unfold pyStrLe at h1 h2
  rw [Bool.not_eq_true'] at h1 h2
  by_contra hne
  have hd : a.data ≠ b.data := fun h => hne (string_data_inj h)
  rcases pyLtChars_connected a.data b.data hd with h | h
  · rw [h2] at h
    exact Bool.false_ne_true h
  · rw [h1] at h
    exact Bool.false_ne_true h

theorem pyStrLt_of_le_of_ne {a b : String} (h : pyStrLe a b = true)
    (hne : a ≠ b) : pyStrLt a b = true := by
  unfold pyStrLe at h
  rw [Bool.not_eq_true'] at h
  have hd : a.data ≠ b.data := fun hh => hne (string_data_inj hh)
  rcases pyLtChars_connected a.data b.data hd with hlt | hlt
  · exact hlt
  · rw [h] at hlt
    exact absurd hlt Bool.false_ne_true

instance : IsTotal String fun a b => pyStrLe a b = true :=
  ⟨pyStrLe_total⟩

instance : IsTrans String fun a b => pyStrLe a b = true :=
  ⟨pyStrLe_trans⟩

instance : IsAntisymm String fun a b => pyStrLe a b = true :=
  ⟨pyStrLe_antisymm⟩

instance : IsTotal (String × (Option Nat × Option Nat)) fun p q => pyStrLe p.1 q.1 = true :=
  ⟨fun p q => pyStrLe_total p.1 q.1⟩

instance : IsTrans (String × (Option Nat × Option Nat)) fun p q => pyStrLe p.1 q.1 = true :=
  ⟨fun p q r => pyStrLe_trans p.1 q.1 r.1⟩

/-! ### Helper lemmas about the dict model and the diff engine -/

theorem dget_ne_none_iff_mem {d : Stock} {k : String} :
    dget d k ≠ none ↔ k ∈ dkeys d := by
  induction d with
  | nil => simp [dget, dkeys]
  | cons p rest ih =>
    by_cases h : p.1 = k
    · simp [dget, dkeys, h]
    · simp [dget, dkeys, h, ih, Ne.symm h]

theorem mem_sortedKeys {old new : Stock} {k : String} :
    k ∈ sortedKeys old new ↔ k ∈ dkeys old ∨ k ∈ dkeys new := by
  unfold sortedKeys
  rw [(List.perm_insertionSort _ _).mem_iff, List.mem_dedup, List.mem_append]

theorem sortedKeys_sorted (old new : Stock) :
    (sortedKeys old new).Sorted fun a b => pyStrLe a b = true :=
  List.sorted_insertionSort _ _

theorem sortedKeys_nodup (old new : Stock) : (sortedKeys old new).Nodup :=
  (List.perm_insertionSort _ _).nodup_iff.mpr (List.nodup_dedup _)

theorem sortedKeys_pairwise_lt (old new : Stock) :
    (sortedKeys old new).Pairwise fun a b => pyStrLt a b = true :=
  ((sortedKeys_sorted old new).and (sortedKeys_nodup old new)).imp
    fun h => pyStrLt_of_le_of_ne h.1 h.2

theorem filterMap_ite_eq_filter_map {α β : Type} (l : List α)
    (p : α → Prop) [DecidablePred p] (f : α → β) :
    (l.filterMap fun a => if p a then some (f a) else none) =
      (l.filter fun a => decide (p a)).map f := by
  induction l with
  | nil => rfl
  | cons a l ih =>
    by_cases h : p a <;> simp [h, ih]

theorem diff_stock_eq_filter_map (old new : Stock) :
    diff_stock old new =
      ((sortedKeys old new).filter fun k => decide (dget old k ≠ dget new k)).map
        fun k => (k, (dget old k, dget new k)) := by
  unfold diff_stock
  exact filterMap_ite_eq_filter_map _ _ _

theorem diff_keys_sublist (old new : Stock) :
    List.Sublist ((diff_stock old new).map Prod.fst) (sortedKeys old new) := by
  rw [diff_stock_eq_filter_map, List.map_map]
  have : (Prod.fst ∘ fun k => (k, (dget old k, dget new k))) = id := rfl
  rw [this, List.map_id]
  exact List.filter_sublist _

theorem mem_diff_stock {old new : Stock} {k : String} {o n : Option Nat} :
    (k, (o, n)) ∈ diff_stock old new ↔
      dget old k ≠ dget new k ∧ o = dget old k ∧ n = dget new k := by
  rw [diff_stock_eq_filter_map]
  constructor
  · intro h
    rcases List.mem_map.mp h with ⟨a, ha, hEq⟩
    rcases List.mem_filter.mp ha with ⟨-, hne⟩
    obtain ⟨rfl, h2⟩ : a = k ∧ (dget old a, dget new a) = (o, n) :=
      ⟨congrArg Prod.fst hEq, congrArg Prod.snd hEq⟩
    refine ⟨of_decide_eq_true hne, ?_, ?_⟩
    · exact (congrArg Prod.fst h2).symm
    · exact (congrArg Prod.snd h2).symm
  · rintro ⟨hne, rfl, rfl⟩
    apply List.mem_map.mpr
    refine ⟨k, List.mem_filter.mpr ⟨?_, decide_eq_true hne⟩, rfl⟩
    apply mem_sortedKeys.mpr
    by_cases ho : dget old k = none
    · right
      apply dget_ne_none_iff_mem.mp
      rw [ho] at hne
      exact fun hn => hne hn.symm
    · left
      exact dget_ne_none_iff_mem.mp ho

theorem sortedKeys_comm (a b : Stock) : sortedKeys a b = sortedKeys b a := by
  apply List.eq_of_perm_of_sorted ?_
    (sortedKeys_sorted a b) (sortedKeys_sorted b a)
  refine ((List.perm_insertionSort _ _).trans ?_).trans
    (List.perm_insertionSort _ _).symm
  apply (List.perm_ext_iff_of_nodup (List.nodup_dedup _) (List.nodup_dedup _)).mpr
  intro x
  simp only [List.mem_dedup, List.mem_append]
  exact Or.comm

/-! ### C2 and C9: the diff engine -/

/-- C2: `diff_stock(previous, current)` holds exactly the keys of the
union of both key sets at which the two `get` results differ, each
mapped to the pair of results (absence as the sentinel `none`), with
the entries listed in strictly ascending key order. -/
theorem diff_stock_characterisation (old new : Stock) :
    ((diff_stock old new).map Prod.fst).Pairwise (fun a b => pyStrLt a b = true) ∧
      (∀ k o n, (k, (o, n)) ∈ diff_stock old new ↔
        dget old k ≠ dget new k ∧ o = dget old k ∧ n = dget new k) ∧
      (∀ p ∈ diff_stock old new, p.1 ∈ dkeys old ∨ p.1 ∈ dkeys new) := by
  refine ⟨List.Pairwise.sublist (diff_keys_sublist old new) (sortedKeys_pairwise_lt old new),
    fun k o n => mem_diff_stock, ?_⟩
  intro p hp
  obtain ⟨k, o, n⟩ := p
  rcases mem_diff_stock.mp hp with ⟨hne, -, -⟩
  by_cases ho : dget old k = none
  · right
    apply dget_ne_none_iff_mem.mp
    rw [ho] at hne
    exact fun hn => hne hn.symm
  · exact Or.inl (dget_ne_none_iff_mem.mp ho)

/-- Witness for C2 on the concrete change `{"A": 3}` to `{"A": 7}`. -/
theorem diff_stock_characterisation_witness :
    dget [("A", 3)] "A" ≠ dget [("A", 7)] "A" ∧
      some 3 = dget [("A", 3)] "A" ∧ some 7 = dget [("A", 7)] "A" :=
  ((diff_stock_characterisation [("A", 3)] [("A", 7)]).2.1 "A" (some 3) (some 7)).mp
    (by decide)

theorem diff_stock_self (S : Stock) : diff_stock S S = [] := by
  unfold diff_stock
  apply List.filterMap_eq_nil_iff.mpr
  intro k hk
  simp

theorem diff_stock_swap (A B : Stock) :
    diff_stock A B = (diff_stock B A).map fun p => (p.1, (p.2.2, p.2.1)) := by
  rw [diff_stock_eq_filter_map, diff_stock_eq_filter_map, sortedKeys_comm B A,
    List.map_map]
  have hp : (fun k => decide (dget A k ≠ dget B k)) =
      fun k => decide (dget B k ≠ dget A k) :=
    funext fun k => decide_eq_decide.mpr ne_comm
  rw [hp]
  rfl

/-- C9: the diff of a snapshot with itself is empty, and swapping the
two snapshots swaps every recorded (old, new) pair while keeping the
same keys in the same order. -/
theorem diff_stock_algebra :
    (∀ S : Stock, diff_stock S S = []) ∧
      (∀ A B : Stock,
        diff_stock A B = (diff_stock B A).map fun p => (p.1, (p.2.2, p.2.1))) :=
  ⟨diff_stock_self, diff_stock_swap⟩

/-! ### C5: the aggregator -/

theorem dget_dinsert (d : Stock) (k : String) (v : Nat) (x : String) :
    dget (dinsert d k v) x = if x = k then some v else dget d x := by
  induction d with
  | nil =>
    by_cases h : x = k
    · simp [dinsert, dget, h]
    · simp [dinsert, dget, h, Ne.symm h]
  | cons p rest ih =>
    by_cases hpk : p.1 = k
    · by_cases hxk : x = k
      · simp [dinsert, dget, hpk, hxk]
      · simp [dinsert, dget, hpk, hxk, Ne.symm hxk]
    · by_cases hpx : p.1 = x
      · have hxk : ¬x = k := fun h => hpk (hpx.trans h)
        simp [dinsert, dget, hpk, hpx, hxk]
      · simp [dinsert, dget, hpk, hpx, ih]

theorem dget_dupdate (d part : Stock) (x : String)
    (hnd : (dkeys part).Nodup) :
    dget (dupdate d part) x =
      if x ∈ dkeys part then dget part x else dget d x := by
  induction part generalizing d with
  | nil => simp [dupdate, dkeys, dget]
  | cons p rest ih =>
    have hcons : p.1 ∉ rest.map Prod.fst ∧ (rest.map Prod.fst).Nodup := by
      simpa [dkeys] using hnd
    have hstep : dupdate d (p :: rest) = dupdate (dinsert d p.1 p.2) rest := rfl
    rw [hstep, ih _ hcons.2]
    simp only [dkeys, List.map_cons, List.mem_cons]
    by_cases hx : x ∈ rest.map Prod.fst
    · have hxp : ¬x = p.1 := fun h => hcons.1 (h ▸ hx)
      rw [if_pos hx, if_pos (Or.inr hx)]
      simp [dget, Ne.symm hxp]
    · rw [if_neg hx, dget_dinsert]
      by_cases hxk : x = p.1
      · rw [if_pos hxk, if_pos (Or.inl hxk)]
        simp [dget, hxk]
      · rw [if_neg hxk, if_neg (not_or.mpr ⟨hxk, hx⟩)]

/-- The merging loop of `fetch_stock`, run over an explicit URL list
from an explicit accumulator. -/
def fetch_go (fetchURL : String → Except String Stock)
    (urls : List String) (total : Stock) : Except String Stock :=
  urls.foldlM (fun total url => do
    let part ← fetchURL url
    pure (dupdate total part)) total

theorem fetch_stock_eq_go (f : String → Except String Stock) (raw : String) :
    fetch_stock f raw = fetch_go f (parse_urls raw) [] := rfl

theorem fetch_go_ok (f : String → Except String Stock) (g : String → Stock) :
    ∀ (urls : List String) (init : Stock),
      (∀ u ∈ urls, f u = Except.ok (g u)) →
      fetch_go f urls init =
        Except.ok (urls.foldl (fun t u => dupdate t (g u)) init) := by
  intro urls
  induction urls with
  | nil => intro init _; rfl
  | cons u rest ih =>
    intro init h
    have hu : f u = Except.ok (g u) := h u (List.mem_cons_self u rest)
    have hrest : ∀ v ∈ rest, f v = Except.ok (g v) :=
      fun v hv => h v (List.mem_cons_of_mem u hv)
    calc fetch_go f (u :: rest) init
        = fetch_go f rest (dupdate init (g u)) := by
          simp only [fetch_go, List.foldlM_cons, hu]
          rfl
      _ = Except.ok (rest.foldl (fun t u => dupdate t (g u)) (dupdate init (g u))) :=
          ih _ hrest
      _ = Except.ok ((u :: rest).foldl (fun t u => dupdate t (g u)) init) := rfl

theorem fetch_go_error (f : String → Except String Stock) :
    ∀ (l₁ : List String) (u : String) (l₂ : List String) (e : String)
      (init : Stock),
      (∀ v ∈ l₁, ∃ s, f v = Except.ok s) → f u = Except.error e →
      fetch_go f (l₁ ++ u :: l₂) init = Except.error e := by
  intro l₁
  induction l₁ with
  | nil =>
    intro u l₂ e init _ hu
    simp only [fetch_go, List.nil_append, List.foldlM_cons, hu]
    rfl
  | cons v rest ih =>
    intro u l₂ e init h hu
    obtain ⟨s, hs⟩ := h v (List.mem_cons_self v rest)
    have hrest : ∀ w ∈ rest, ∃ s, f w = Except.ok s :=
      fun w hw => h w (List.mem_cons_of_mem v hw)
    calc fetch_go f ((v :: rest) ++ u :: l₂) init
        = fetch_go f (rest ++ u :: l₂) (dupdate init s) := by
          simp only [fetch_go, List.cons_append, List.foldlM_cons, hs]
          rfl
      _ = Except.error e := ih u l₂ e _ hrest hu

/-- C5: the aggregator walks exactly the URLs obtained by splitting
the configured string on commas, trimming and discarding empties, in
order; when every fetch succeeds the result is the left fold of
`dict.update` merges (so a later URL overwrites an earlier one on a
key collision, with the spec's two-page example evaluating to
`{"X": 2, "Y": 5}`); and the first failing fetch aborts the whole
aggregation with that failure, producing no snapshot. -/
theorem fetch_stock_spec (f : String → Except String Stock) (raw : String) :
    (∀ g : String → Stock,
      (∀ u ∈ parse_urls raw, f u = Except.ok (g u)) →
      fetch_stock f raw =
        Except.ok ((parse_urls raw).foldl (fun t u => dupdate t (g u)) [])) ∧
    (∀ (l₁ : List String) (u : String) (l₂ : List String) (e : String),
      parse_urls raw = l₁ ++ u :: l₂ →
      (∀ v ∈ l₁, ∃ s, f v = Except.ok s) → f u = Except.error e →
      fetch_stock f raw = Except.error e) ∧
    (∀ (d part : Stock) (x : String), (dkeys part).Nodup →
      dget (dupdate d part) x =
        if x ∈ dkeys part then dget part x else dget d x) ∧
    fetch_stock exampleFetcher "u1, u2" = Except.ok [("X", 2), ("Y", 5)] := by
  refine ⟨?_, ?_, fun d part x h => dget_dupdate d part x h, by rfl⟩
  · intro g h
    rw [fetch_stock_eq_go]
    exact fetch_go_ok f g _ _ h
  · intro l₁ u l₂ e hsplit h hu
    rw [fetch_stock_eq_go, hsplit]
    exact fetch_go_error f l₁ u l₂ e [] h hu

/-- Witness for C5: the spec's two-URL merge example, with the later
page winning the collision on X. -/
theorem fetch_stock_spec_witness :
    fetch_stock exampleFetcher "u1, u2" = Except.ok [("X", 2), ("Y", 5)] :=
  (fetch_stock_spec exampleFetcher "u1, u2").2.2.2

/-! ### C6: the change report -/

theorem change_step_ok {p : String × (Option Nat × Option Nat)}
    (acc : List String) (h1 : p.2.1 ≠ none) (h2 : p.2.2 ≠ none) :
    change_step acc p = Except.ok (acc ++ [change_line p]) := by
  obtain ⟨a, ha⟩ := Option.ne_none_iff_exists'.mp h1
  obtain ⟨b, hb⟩ := Option.ne_none_iff_exists'.mp h2
  simp [change_step, change_line, pyLt, ha, hb]

theorem change_step_error {p : String × (Option Nat × Option Nat)}
    (acc : List String) (h : p.2.1 = none ∨ p.2.2 = none) :
    change_step acc p = Except.error () := by
  rcases h with h | h <;>
    · rw [change_step, h]
      cases hx : p.2.1 <;> cases hy : p.2.2 <;> simp_all [pyLt]

theorem change_fold_ok :
    ∀ (l : ChangeRec) (acc : List String),
      (∀ p ∈ l, p.2.1 ≠ none ∧ p.2.2 ≠ none) →
      l.foldlM change_step acc = Except.ok (acc ++ l.map change_line) := by
  intro l
  induction l with
  | nil =>
    intro acc _
    rw [List.foldlM_nil, List.map_nil, List.append_nil]
    rfl
  | cons p rest ih =>
    intro acc h
    obtain ⟨h1, h2⟩ := h p (List.mem_cons_self p rest)
    have hrest : ∀ q ∈ rest, q.2.1 ≠ none ∧ q.2.2 ≠ none :=
      fun q hq => h q (List.mem_cons_of_mem p hq)
    calc (p :: rest).foldlM change_step acc
        = rest.foldlM change_step (acc ++ [change_line p]) := by
          simp only [List.foldlM_cons, change_step_ok acc h1 h2]
          rfl
      _ = Except.ok ((acc ++ [change_line p]) ++ rest.map change_line) := ih _ hrest
      _ = Except.ok (acc ++ (p :: rest).map change_line) := by
          simp [List.append_assoc]

theorem change_fold_error_iff :
    ∀ (l : ChangeRec) (acc : List String),
      (l.foldlM change_step acc = Except.error () ↔
        ∃ p ∈ l, p.2.1 = none ∨ p.2.2 = none) := by
  intro l
  induction l with
  | nil =>
    intro acc
    rw [List.foldlM_nil]
    simp only [List.not_mem_nil, false_and, exists_false, iff_false]
    intro hcontra
    exact absurd hcontra.symm (by simp [pure, Except.pure])
  | cons p rest ih =>
    intro acc
    by_cases hbad : p.2.1 = none ∨ p.2.2 = none
    · constructor
      · intro _
        exact ⟨p, List.mem_cons_self p rest, hbad⟩
      · intro _
        simp only [List.foldlM_cons, change_step_error acc hbad]
        rfl
    · push_neg at hbad
      rw [List.foldlM_cons, change_step_ok acc hbad.1 hbad.2]
      have hred : (Except.ok (acc ++ [change_line p]) >>=
          fun b => rest.foldlM change_step b) =
          rest.foldlM change_step (acc ++ [change_line p]) := rfl
      rw [hred, ih]
      constructor
      · rintro ⟨q, hq, hnone⟩
        exact ⟨q, List.mem_cons_of_mem p hq, hnone⟩
      · rintro ⟨q, hq, hnone⟩
        rcases List.mem_cons.mp hq with rfl | hq2
        · rcases hnone with h | h
          · exact absurd h hbad.1
          · exact absurd h hbad.2
        · exact ⟨q, hq2, hnone⟩

/-- C6: `build_change_message` renders, after the header, exactly one
line per entry (the sorted entries are a permutation of the change
record), in ascending key order, each line being
`name: old -> new arrow` with the arrow `↗️` when `old < new` and
`↘️` otherwise, then the timestamp line; and it raises a type error
exactly when some entry carries the absence sentinel on either
side. -/
theorem build_change_message_spec (changes : ChangeRec) (mode ts : String) :
    List.Perm (sortChanges changes) changes ∧
      ((sortChanges changes).map Prod.fst).Sorted (fun a b => pyStrLe a b = true) ∧
      (build_change_message changes mode ts = Except.error () ↔
        ∃ p ∈ changes, p.2.1 = none ∨ p.2.2 = none) ∧
      ((∀ p ∈ changes, p.2.1 ≠ none ∧ p.2.2 ≠ none) →
        build_change_message changes mode ts =
          Except.ok (String.intercalate "\n"
            (["🔔 " ++ mode ++ " 库存变动提醒", ""] ++
              (sortChanges changes).map change_line ++ ["更新时间：" ++ ts]))) := by
  refine ⟨List.perm_insertionSort _ _, ?_, ?_, ?_⟩
  · exact List.Pairwise.map Prod.fst (fun p q hpq => hpq)
      (List.sorted_insertionSort _ _)
  · unfold build_change_message
    cases hfold : (sortChanges changes).foldlM change_step
        ["🔔 " ++ mode ++ " 库存变动提醒", ""] with
    | error u =>
      cases u
      have := (change_fold_error_iff (sortChanges changes) _).mp hfold
      simp only [hfold]
      constructor
      · intro _
        rcases this with ⟨p, hp, hnone⟩
        exact ⟨p, (List.perm_insertionSort _ _).mem_iff.mp hp, hnone⟩
      · intro _
        rfl
    | ok lines =>
      simp only [hfold]
      constructor
      · intro hcontra
        exact absurd hcontra (by simp)
      · rintro ⟨p, hp, hnone⟩
        have hmem : p ∈ sortChanges changes :=
          (List.perm_insertionSort _ _).mem_iff.mpr hp
        have : (sortChanges changes).foldlM change_step
            ["🔔 " ++ mode ++ " 库存变动提醒", ""] = Except.error () :=
          (change_fold_error_iff (sortChanges changes) _).mpr ⟨p, hmem, hnone⟩
        rw [hfold] at this
        exact absurd this (by simp)
  · intro h
    have hsorted : ∀ p ∈ sortChanges changes, p.2.1 ≠ none ∧ p.2.2 ≠ none :=
      fun p hp => h p ((List.perm_insertionSort _ _).mem_iff.mp hp)
    have hfold := change_fold_ok (sortChanges changes)
      ["🔔 " ++ mode ++ " 库存变动提醒", ""] hsorted
    calc build_change_message changes mode ts
        = ((sortChanges changes).foldlM change_step
            ["🔔 " ++ mode ++ " 库存变动提醒", ""]) >>= fun lines =>
              pure (String.intercalate "\n" (lines ++ ["更新时间：" ++ ts])) := rfl
      _ = Except.ok (String.intercalate "\n"
            (["🔔 " ++ mode ++ " 库存变动提醒", ""] ++
              (sortChanges changes).map change_line ++ ["更新时间：" ++ ts])) := by
          rw [hfold]
          rfl

/-- Witness for C6: the spec's single change `A: 3 -> 7` renders with
the increase arrow. -/
theorem build_change_message_spec_witness :
    build_change_message [("A", (some 3, some 7))] "realtime" "TS" =
      Except.ok "🔔 realtime 库存变动提醒\n\nA: 3 -> 7 ↗️\n更新时间：TS" :=
  ((build_change_message_spec [("A", (some 3, some 7))] "realtime" "TS").2.2.2
    (by decide)).trans (congrArg Except.ok (by decide))

/-! ### C7: the full report -/

theorem stock_fold_filter (c : String × Nat → Bool) (g : String × Nat → String) :
    ∀ (stock : Stock) (acc : List String),
      stock.foldl (fun lines p => if c p then lines ++ [g p] else lines) acc =
        acc ++ (stock.filter c).map g := by
  intro stock
  induction stock with
  | nil => intro acc; simp
  | cons p rest ih =>
    intro acc
    rw [List.foldl_cons]
    by_cases h : c p
    · rw [if_pos h, ih]
      simp [List.filter_cons, h, List.append_assoc]
    · rw [if_neg h, ih]
      simp [List.filter_cons, h]

theorem cat_fold (stock : Stock) :
    ∀ (cats : List String) (acc : List String),
      cats.foldl (fun lines product_type =>
        (stock.foldl (fun lines p =>
          if pyInSubstr product_type p.1 then lines ++ [full_line p.1 p.2] else lines)
          (lines ++ ["【" ++ product_type ++ "】"])) ++ [""]) acc =
      acc ++ cats.flatMap (fun pt =>
        ("【" ++ pt ++ "】") ::
          ((stock.filter fun p => pyInSubstr pt p.1).map (fun p => full_line p.1 p.2) ++
            [""])) := by
  intro cats
  induction cats with
  | nil => intro acc; simp
  | cons pt cats ih =>
    intro acc
    rw [List.foldl_cons, stock_fold_filter, ih]
    simp [List.append_assoc]

/-- C7 (amended): the full report is the header line and blank line,
then for each configured category in configured order a section
header followed by one line per product whose name contains the
category label as a substring — the line being
`name: count 台 (regions)` with the comma-joined alphanumeric tokens
of the name after its second hyphen-separated segment — then a blank
separator line even when the category matched nothing, ending with
the timestamp line; a product whose name matches several category
labels is listed under each of them. -/
theorem build_full_message_spec (stock_dict : Stock) (mode ts : String) :
    build_full_message stock_dict mode ts =
      String.intercalate "\n"
        (["📊 " ++ mode ++ " 库存汇总", ""] ++
          product_types.flatMap (fun pt =>
            ("【" ++ pt ++ "】") ::
              ((stock_dict.filter fun p => pyInSubstr pt p.1).map
                (fun p => full_line p.1 p.2) ++ [""])) ++
          ["更新时间：" ++ ts]) := by
  show String.intercalate "\n"
      ((product_types.foldl (fun lines product_type =>
        (stock_dict.foldl (fun lines p =>
          if pyInSubstr product_type p.1 then lines ++ [full_line p.1 p.2] else lines)
          (lines ++ ["【" ++ product_type ++ "】"])) ++ [""])
        ["📊 " ++ mode ++ " 库存汇总", ""]) ++ ["更新时间：" ++ ts]) = _
  rw [cat_fold stock_dict product_types]

/-- Counterexample to C7 as stated: with the snapshot
`{"中国人妻-a-b": 3}` the matching line carries a region suffix, so
the exact claimed format `name: count 台` appears on no line of the
report while `name: count 台 (b)` does. -/
theorem build_full_message_counterexample :
    ¬("中国人妻-a-b: 3 台" ∈
        pySplit '\n' (build_full_message [("中国人妻-a-b", 3)] "daily" "TS")) ∧
      ("中国人妻-a-b: 3 台 (b)" ∈
        pySplit '\n' (build_full_message [("中国人妻-a-b", 3)] "daily" "TS")) := by
  decide

/-! ### The orchestrator: C1, C3, C4, C8, C10 -/

theorem isEmpty_false_of_ne_nil {α : Type} {l : List α} (h : l ≠ []) :
    l.isEmpty = false := by
  cases l with
  | nil => exact absurd rfl h
  | cons p rest => rfl

theorem main_no_prior (current : Stock) (fs : FileState) (mode : String)
    (ooc : Bool) (ts : String) (hne : current ≠ [])
    (hl : load_last_stock fs = none) :
    main (Except.ok current) fs mode ooc ts =
      ⟨some current, [build_full_message current mode ts ++ first_run_suffix],
        false⟩ := by
  simp [main, isEmpty_false_of_ne_nil hne, hl]

theorem build_change_message_ok_of_all_present (changes : ChangeRec)
    (mode ts : String) (h : ∀ p ∈ changes, p.2.1 ≠ none ∧ p.2.2 ≠ none) :
    ∃ m, build_change_message changes mode ts = Except.ok m := by
  have hsorted : ∀ p ∈ sortChanges changes, p.2.1 ≠ none ∧ p.2.2 ≠ none :=
    fun p hp => h p ((List.perm_insertionSort _ _).mem_iff.mp hp)
  have hfold := change_fold_ok (sortChanges changes)
    ["🔔 " ++ mode ++ " 库存变动提醒", ""] hsorted
  refine ⟨String.intercalate "\n"
    (["🔔 " ++ mode ++ " 库存变动提醒", ""] ++
      (sortChanges changes).map change_line ++ ["更新时间：" ++ ts]), ?_⟩
  calc build_change_message changes mode ts
      = ((sortChanges changes).foldlM change_step
          ["🔔 " ++ mode ++ " 库存变动提醒", ""]) >>= fun lines =>
            pure (String.intercalate "\n" (lines ++ ["更新时间：" ++ ts])) := rfl
    _ = Except.ok (String.intercalate "\n"
          (["🔔 " ++ mode ++ " 库存变动提醒", ""] ++
            (sortChanges changes).map change_line ++ ["更新时间：" ++ ts])) := by
        rw [hfold]
        rfl

/-- C3: the snapshot file is written exactly when the fetch succeeded
with at least one entry, and then with exactly the current snapshot:
nothing is written on a fetch error or an empty parse, and since the
equation holds whatever the notification branch does afterwards, the
write does not depend on the notification succeeding. -/
theorem main_persistence (fetched : Except String Stock) (fs : FileState)
    (mode : String) (ooc : Bool) (ts : String) :
    (main fetched fs mode ooc ts).saved =
      match fetched with
      | Except.error _ => none
      | Except.ok c => if c = [] then none else some c := by
  cases fetched with
  | error e => rfl
  | ok current =>
    by_cases hne : current = []
    · subst hne
      rfl
    · show (main (Except.ok current) fs mode ooc ts).saved =
        if current = [] then none else some current
      rw [if_neg hne]
      cases hl : load_last_stock fs with
      | none => simp [main, isEmpty_false_of_ne_nil hne, hl]
      | some last =>
        by_cases hch : diff_stock last current = []
        · cases ooc <;> simp [main, isEmpty_false_of_ne_nil hne, hl, hch]
        · cases ooc with
          | false =>
            simp [main, isEmpty_false_of_ne_nil hne, hl,
              isEmpty_false_of_ne_nil hch]
          | true =>
            cases hbc : build_change_message (diff_stock last current) mode ts with
            | error u =>
              simp [main, isEmpty_false_of_ne_nil hne, hl,
                isEmpty_false_of_ne_nil hch, hbc]
            | ok m =>
              simp [main, isEmpty_false_of_ne_nil hne, hl,
                isEmpty_false_of_ne_nil hch, hbc]

/-- C4: on a run with a non-empty current snapshot and no prior
snapshot available, `main` persists the current snapshot and sends
exactly one notification: the full report with the first-run marker
appended, whatever the change-only flag says. -/
theorem main_first_run (current : Stock) (fs : FileState) (mode : String)
    (ooc : Bool) (ts : String) (hne : current ≠ [])
    (hl : load_last_stock fs = none) :
    main (Except.ok current) fs mode ooc ts =
      ⟨some current, [build_full_message current mode ts ++ first_run_suffix],
        false⟩ :=
  main_no_prior current fs mode ooc ts hne hl

/-- Witness for C4: the spec's first-run example `{"A-x-1": 5}` with
a missing snapshot file. -/
theorem main_first_run_witness :
    main (Except.ok [("A-x-1", 5)]) FileState.missing "realtime" true "TS" =
      ⟨some [("A-x-1", 5)],
        [build_full_message [("A-x-1", 5)] "realtime" "TS" ++ first_run_suffix],
        false⟩ :=
  main_first_run [("A-x-1", 5)] FileState.missing "realtime" true "TS"
    (by decide) rfl

/-- C1 (amended): with a successful fetch, a non-empty current
snapshot and a loaded prior snapshot, the notification decision
follows the table: empty diff with the change-only flag set sends
nothing; empty diff with the flag clear sends exactly one full
report; non-empty diff with the flag set sends exactly one rendered
change report provided every diff entry has both sides present
(otherwise rendering raises a type error and nothing is sent);
non-empty diff with the flag clear sends exactly one full report. -/
theorem main_decision_table (current last : Stock) (fs : FileState)
    (mode : String) (ooc : Bool) (ts : String)
    (hne : current ≠ []) (hl : load_last_stock fs = some last) :
    (diff_stock last current = [] → ooc = true →
      (main (Except.ok current) fs mode ooc ts).sent = []) ∧
    (diff_stock last current = [] → ooc = false →
      (main (Except.ok current) fs mode ooc ts).sent =
        [build_full_message current mode ts]) ∧
    (diff_stock last current ≠ [] → ooc = true →
      (∀ p ∈ diff_stock last current, p.2.1 ≠ none ∧ p.2.2 ≠ none) →
      ∃ m, build_change_message (diff_stock last current) mode ts = Except.ok m ∧
        (main (Except.ok current) fs mode ooc ts).sent = [m]) ∧
    (diff_stock last current ≠ [] → ooc = false →
      (main (Except.ok current) fs mode ooc ts).sent =
        [build_full_message current mode ts]) := by
  refine ⟨?_, ?_, ?_, ?_⟩
  · intro hd hooc
    subst hooc
    simp [main, isEmpty_false_of_ne_nil hne, hl, hd]
  · intro hd hooc
    subst hooc
    simp [main, isEmpty_false_of_ne_nil hne, hl, hd]
  · intro hd hooc hall
    subst hooc
    obtain ⟨m, hm⟩ := build_change_message_ok_of_all_present _ mode ts hall
    refine ⟨m, hm, ?_⟩
    simp [main, isEmpty_false_of_ne_nil hne, hl, isEmpty_false_of_ne_nil hd, hm]
  · intro hd hooc
    subst hooc
    simp [main, isEmpty_false_of_ne_nil hne, hl, isEmpty_false_of_ne_nil hd]

/-- Witness for C1: a no-change run in change-only mode stays
silent. -/
theorem main_decision_table_witness :
    (main (Except.ok [("A", 3)]) (FileState.parsed (some [("A", 3)]))
      "realtime" true "TS").sent = [] :=
  (main_decision_table [("A", 3)] [("A", 3)]
    (FileState.parsed (some [("A", 3)])) "realtime" true "TS"
    (by decide) rfl).1 (by decide) rfl

/-- Counterexample to C1 as stated: with prior `{"A": 1}` and current
`{"A": 1, "B": 2}` the diff records the appearance of B as
`(none, some 2)`; in change-only mode the claimed single change
report is not sent — the comparison in the renderer raises and the
run sends nothing. -/
theorem main_decision_table_counterexample :
    diff_stock [("A", 1)] [("A", 1), ("B", 2)] = [("B", (none, some 2))] ∧
      (main (Except.ok [("A", 1), ("B", 2)])
        (FileState.parsed (some [("A", 1)])) "realtime" true "TS").sent = [] := by
  decide

/-- C8 (amended): fetch failures are caught inside `main`, reported
with a notification, and the run returns normally; but not every
error is caught: an exception escapes `main` exactly when the run
reaches change-only notification of a non-empty diff whose rendering
raises the sentinel-comparison type error. -/
theorem main_error_policy (fetched : Except String Stock) (fs : FileState)
    (mode : String) (ooc : Bool) (ts : String) :
    (∀ e, fetched = Except.error e →
      main fetched fs mode ooc ts = ⟨none, [fetch_fail_msg e], false⟩) ∧
    ((main fetched fs mode ooc ts).crashed = true ↔
      ∃ current last, fetched = Except.ok current ∧ current ≠ [] ∧
        load_last_stock fs = some last ∧ diff_stock last current ≠ [] ∧
        ooc = true ∧
        build_change_message (diff_stock last current) mode ts =
          Except.error ()) := by
  constructor
  · rintro e rfl
    rfl
  · cases fetched with
    | error e => simp [main]
    | ok current =>
      by_cases hne : current = []
      · subst hne
        simp [main]
      · cases hl : load_last_stock fs with
        | none => simp [main, isEmpty_false_of_ne_nil hne, hl, hne]
        | some last =>
          by_cases hch : diff_stock last current = []
          · cases ooc <;>
              simp [main, isEmpty_false_of_ne_nil hne, hl, hne, hch]
          · cases ooc with
            | false =>
              simp [main, isEmpty_false_of_ne_nil hne, hl, hne,
                isEmpty_false_of_ne_nil hch, hch]
            | true =>
              cases hbc : build_change_message (diff_stock last current) mode ts with
              | error u =>
                cases u
                simp [main, isEmpty_false_of_ne_nil hne, hl, hne,
                  isEmpty_false_of_ne_nil hch, hch, hbc]
              | ok m =>
                simp [main, isEmpty_false_of_ne_nil hne, hl, hne,
                  isEmpty_false_of_ne_nil hch, hch, hbc]

/-- Witness for C8: a failed fetch is reported and the run ends
normally. -/
theorem main_error_policy_witness :
    main (Except.error "boom") FileState.missing "realtime" false "TS" =
      ⟨none, [fetch_fail_msg "boom"], false⟩ :=
  (main_error_policy (Except.error "boom") FileState.missing "realtime"
    false "TS").1 "boom" rfl

/-- Counterexample to C8 as stated: on the appearance of product B in
change-only mode the sentinel comparison raises and the exception
leaves `main` uncaught. -/
theorem main_error_policy_counterexample :
    (main (Except.ok [("A", 1), ("B", 2)])
      (FileState.parsed (some [("A", 1)])) "realtime" true "TS").crashed =
        true := by
  decide

/-- C10: a snapshot file that exists and parses to the JSON literal
`null` loads as exactly the no-prior value of a missing or corrupt
file, so such a run behaves like a first run: it persists the current
snapshot and sends one full report with the first-run marker. -/
theorem load_null_is_first_run :
    load_last_stock (FileState.parsed none) = none ∧
      load_last_stock FileState.missing = none ∧
      load_last_stock FileState.corrupt = none ∧
      (∀ (fetched : Except String Stock) (mode : String) (ooc : Bool)
        (ts : String),
        main fetched (FileState.parsed none) mode ooc ts =
          main fetched FileState.missing mode ooc ts) ∧
      (∀ (current : Stock) (mode : String) (ooc : Bool) (ts : String),
        current ≠ [] →
        main (Except.ok current) (FileState.parsed none) mode ooc ts =
          ⟨some current,
            [build_full_message current mode ts ++ first_run_suffix], false⟩) := by
  refine ⟨rfl, rfl, rfl, ?_, ?_⟩
  · intro fetched mode ooc ts
    cases fetched <;> rfl
  · intro current mode ooc ts hne
    exact main_no_prior current (FileState.parsed none) mode ooc ts hne rfl

/-- Witness for C10: with the file holding `null`, a run persists the
snapshot and sends the first-run full report. -/
theorem load_null_is_first_run_witness :
    main (Except.ok [("A", 5)]) (FileState.parsed none) "daily" true "TS" =
      ⟨some [("A", 5)],
        [build_full_message [("A", 5)] "daily" "TS" ++ first_run_suffix],
        false⟩ :=
  load_null_is_first_run.2.2.2.2 [("A", 5)] "daily" true "TS" (by decide)

end Monitor
